import Mathlib

/-
Verification of the board-value search engine of the tokyodoves repository
(src/src/analysis/board_value.rs), shallowly embedded in Lean 4.

The board/move-generation collaborator (bitboard representation, legal-move
enumeration, surrounded-status computation) is out of scope of the core per
spec section 1 and section 6; it is abstracted here as a structure `GameIface`
exposing exactly the operations the search core consumes (section 6), with
boards and actions represented by their lossless `u64` packings (`to_u64`).
All definitions below are translated from src/src/analysis/board_value.rs,
src/src/game.rs and src/src/prelude/pieces.rs unless a doc comment says
otherwise.
-/

namespace TokyoDoves

/-- Two colors of player (src/src/prelude/pieces.rs, `enum Color`). -/
inductive Color where
  | red
  | green
deriving DecidableEq, Repr

/-- Toggle of a color (src/src/prelude/pieces.rs, `impl Not for Color`);
written `!player` in the source. -/
def Color.not : Color → Color
  | .red => .green
  | .green => .red

/-- Judgement of winner on some event (src/src/game.rs, `enum Judge`). -/
inductive Judge where
  | lastWins
  | nextWins
  | draw
deriving DecidableEq, Repr

/-- Game rule configuration (src/src/game.rs, `struct GameRule`); only the two
fields the analysis core reads are kept (`first_player` and `initial_board`
are never consulted by src/src/analysis/board_value.rs). -/
structure GameRule where
  isRemoveAccepted : Bool
  suicideAtkJudge : Judge
deriving DecidableEq, Repr

/-- Modelled from the spec: section 6 specifies
`surrounded_status() -> {None, OneSide(Color), Both}`; the module defining
this enum is not among the provided source files (only its uses are). -/
inductive SurroundedStatus where
  | none
  | oneSide (c : Color)
  | both
deriving DecidableEq, Repr

/-- Three kinds of `BoardValue` plus `Finished`
(src/src/analysis/board_value.rs, `enum BoardValueKind`). -/
inductive BoardValueKind where
  | win
  | lose
  | unknown
  | finished
deriving DecidableEq, Repr

/-- Value of a board (src/src/analysis/board_value.rs, `struct BoardValue`):
a wrapped `Option<usize>`; `None` is `Unknown`, `Some(0)` is `Finished`,
`Some(odd)` is `Win`, `Some(even > 0)` is `Lose`. -/
structure BoardValue where
  value : Option Nat
deriving DecidableEq, Repr

/-- `BoardValue::MAX`, that is `Win(1)`. -/
def BoardValue.MAX : BoardValue := ⟨some 1⟩

/-- `BoardValue::MIN`, that is `Lose(2)`. -/
def BoardValue.MIN : BoardValue := ⟨some 2⟩

/-- `BoardValue::kind` (src/src/analysis/board_value.rs). -/
def BoardValue.kind (v : BoardValue) : BoardValueKind :=
  match v.value with
  | Option.none => .unknown
  | some 0 => .finished
  | some (n + 1) => if (n + 1) % 2 = 0 then .lose else .win

/-- `BoardValue::win`: accepts odd numbers only. -/
def BoardValue.win (num : Nat) : Option BoardValue :=
  if num % 2 = 1 then some ⟨some num⟩ else Option.none

/-- `BoardValue::lose`: accepts positive even numbers only. -/
def BoardValue.lose (num : Nat) : Option BoardValue :=
  if num ≠ 0 ∧ num % 2 = 0 then some ⟨some num⟩ else Option.none

/-- `BoardValue::unknown`. -/
def BoardValue.unknown : BoardValue := ⟨Option.none⟩

/-- `BoardValue::finished`. -/
def BoardValue.finished : BoardValue := ⟨some 0⟩

/-- `BoardValue::try_unwrap`: the number when it is at least 1. -/
def BoardValue.tryUnwrap (v : BoardValue) : Option Nat :=
  match v.value with
  | some (n + 1) => some (n + 1)
  | _ => Option.none

/-- `BoardValue::is_win`. -/
def BoardValue.isWin (v : BoardValue) : Bool := v.kind == .win

/-- `BoardValue::is_lose`. -/
def BoardValue.isLose (v : BoardValue) : Bool := v.kind == .lose

/-- `BoardValue::is_unknown`. -/
def BoardValue.isUnknown (v : BoardValue) : Bool := v.kind == .unknown

/-- `BoardValue::is_finished`. -/
def BoardValue.isFinished (v : BoardValue) : Bool := v.kind == .finished

/-- `BoardValue::increment`: `Unknown -> Unknown`,
`Finished -> Win(1) -> Lose(2) -> Win(3) -> ...`. -/
def BoardValue.increment (v : BoardValue) : BoardValue :=
  ⟨v.value.map (· + 1)⟩

/-- `BoardValue::try_decrement`: partial inverse of `increment`;
`None` exactly on `Finished`. -/
def BoardValue.tryDecrement (v : BoardValue) : Option BoardValue :=
  match v.value with
  | some 0 => Option.none
  | some (n + 1) => some ⟨some n⟩
  | Option.none => some ⟨Option.none⟩

/-- The `_kind_to_u8` helper inside `PartialOrd for BoardValueKind`
(src/src/analysis/board_value.rs); the source marks the `Finished` arm
`unreachable!()` because the caller filters `Finished` out first. -/
def kindToU8 : BoardValueKind → Nat
  | .win => 2
  | .unknown => 1
  | .lose => 0
  | .finished => 0

/-- `PartialOrd::partial_cmp for BoardValueKind`: `Finished` compares equal
only to itself and is incomparable to everything else; otherwise the kinds
compare through `_kind_to_u8`. -/
def BoardValueKind.partialCmp (a b : BoardValueKind) : Option Ordering :=
  if a = .finished ∨ b = .finished then
    if a = b then some .eq else Option.none
  else
    some (compare (kindToU8 a) (kindToU8 b))

/-- `PartialOrd::partial_cmp for BoardValue`: kinds first; for equal
`Win`/`Lose` kinds the numbers decide (reversed for `Win`). -/
def BoardValue.partialCmp (a b : BoardValue) : Option Ordering :=
  if a.kind ≠ b.kind ∨ a.kind = .unknown ∨ a.kind = .finished then
    a.kind.partialCmp b.kind
  else
    match a.value, b.value, a.kind with
    | some leftNum, some rightNum, .lose => some (compare leftNum rightNum)
    | some leftNum, some rightNum, .win => some (compare rightNum leftNum)
    | _, _, _ => Option.none

/-- The board/move-generation collaborator, abstracted exactly at the
interface the search core consumes (spec section 6): `legal_actions`,
`perform` (`perform_unchecked_copied` in the source) and
`surrounded_status`. Boards and actions are represented by their lossless
packed encodings (`to_u64`), so both are natural numbers. -/
structure GameIface where
  legalActions : Nat → Color → Bool → Bool → Bool → List Nat
  perform : Nat → Nat → Nat
  surroundedStatus : Nat → SurroundedStatus

/-- Immediate outcome of one candidate action
(src/src/analysis/board_value.rs, `enum NextBoardStatus`). -/
inductive NextBoardStatus where
  | win
  | lose
  | unknown
deriving DecidableEq, Repr

/-- The `wins_if_both` flag computed in `NextBoardIter::new`: `LastWins`
means the mover who just moved wins when both bosses are surrounded.
The source panics on `Judge::Draw` ("validation error"); that judge is
rejected by `validate_args` before any search, so it is mapped to `none`. -/
def winsIfBoth : Judge → Option Bool
  | .lastWins => some true
  | .nextWins => some false
  | .draw => Option.none

/-- The outcome classification inside `Iterator::next for NextBoardIter`,
restructured from the source's two boolean conditions into a case split on
the surrounded status (provably the same function): both-surrounded resolves
by `wins_if_both`; one side surrounded is a win for the mover exactly when
the other side is the surrounded one; otherwise unknown. -/
def classifyNextBoard (winsBoth : Bool) (player : Color) : SurroundedStatus → NextBoardStatus
  | .both => if winsBoth then .win else .lose
  | .oneSide p => if p = player then .lose else .win
  | .none => .unknown

/-- The full (finite, lazy in the source) sequence produced by
`NextBoardIter`: one `(action, next_board, status)` triple per legal action.
`Judge::Draw` (on which `NextBoardIter::new` panics) yields the empty
sequence here; every use below is guarded by validation excluding it. -/
def nextBoardIter (g : GameIface) (board : Nat) (player : Color) (rule : GameRule) :
    List (Nat × Nat × NextBoardStatus) :=
  match winsIfBoth rule.suicideAtkJudge with
  | Option.none => []
  | some winsBoth =>
    (g.legalActions board player true true rule.isRemoveAccepted).map fun action =>
      let nextBoard := g.perform board action
      (action, nextBoard, classifyNextBoard winsBoth player (g.surroundedStatus nextBoard))

/-- `struct BoardValueTree`: a packed board snapshot, the mover, the node's
value, and the children keyed by action (a `HashMap` in the source; modelled
as an association list with unique keys, insertion order irrelevant). -/
inductive BoardValueTree where
  | node (boardRaw : Nat) (player : Color) (value : BoardValue)
      (children : List (Nat × BoardValueTree))
deriving Repr

/-- The stored value of the root node. -/
def BoardValueTree.value : BoardValueTree → BoardValue
  | .node _ _ v _ => v

/-- The children of the root node. -/
def BoardValueTree.children : BoardValueTree → List (Nat × BoardValueTree)
  | .node _ _ _ ch => ch

/-- The packed board of the root node. -/
def BoardValueTree.boardRaw : BoardValueTree → Nat
  | .node b _ _ _ => b

/-- The mover at the root node. -/
def BoardValueTree.player : BoardValueTree → Color
  | .node _ p _ _ => p

/-- Functional update of the root value (`tree.value = ...` in the source). -/
def BoardValueTree.withValue : BoardValueTree → BoardValue → BoardValueTree
  | .node b p _ ch, v => .node b p v ch

/-- Functional update of the root children (`tree.children.clear()` and
re-insertion in the source). -/
def BoardValueTree.withChildren : BoardValueTree → List (Nat × BoardValueTree) → BoardValueTree
  | .node b p v _, ch => .node b p v ch

/-- `HashMap::insert` on the association list of children: replaces the
entry of an existing key, otherwise appends. -/
def insertChild (action : Nat) (child : BoardValueTree) :
    List (Nat × BoardValueTree) → List (Nat × BoardValueTree)
  | [] => [(action, child)]
  | (a, c) :: rest =>
    if a = action then (action, child) :: rest else (a, c) :: insertChild action child rest

/-- `Ord::max` on `std::cmp::Ordering` (derived order `Less < Equal < Greater`). -/
def ordMax (a b : Ordering) : Ordering :=
  match a, b with
  | .lt, x => x
  | .eq, .lt => .eq
  | .eq, x => x
  | .gt, _ => .gt

/-- Error variants on validation of arguments (`enum ArgsValidationError`). -/
inductive ArgsValidationError where
  | finishedBoardError (board : Nat)
  | unsupportedValueError (boadValue : BoardValue)
  | drawJudgeError
deriving DecidableEq, Repr

/-- `enum CreateCheckmateTreeWithValueError`. -/
inductive CreateCheckmateTreeWithValueError where
  | argsValidationError (e : ArgsValidationError)
  | valueMismatchError (o : Ordering)
deriving DecidableEq, Repr

/-- `validate_args`: rejects an already finished board, an `Unknown` or
`Finished` value, and the `Judge::Draw` rule, in this order; `none` means
the arguments were accepted. -/
def validateArgs (g : GameIface) (board : Nat) (value : BoardValue) (rule : GameRule) :
    Option ArgsValidationError :=
  if g.surroundedStatus board ≠ SurroundedStatus.none then
    some (.finishedBoardError board)
  else if value.isFinished || value.isUnknown then
    some (.unsupportedValueError value)
  else if ¬ (rule.suicideAtkJudge = .nextWins ∨ rule.suicideAtkJudge = .lastWins) then
    some .drawJudgeError
  else
    Option.none

/-- Closed interval between two `BoardValue`s (`struct Interval`). -/
structure Interval where
  left : BoardValue
  right : BoardValue
deriving DecidableEq, Repr

/-- `Interval::single`: the common value when both ends coincide. -/
def Interval.single (i : Interval) : Option BoardValue :=
  if i.left = i.right then some i.left else Option.none

/-- The body of the `for` loop of `create_checkmate_tree_unchecked`, with the
recursive call abstracted as `recur` (applied to each unknown-outcome next
board). A `Win` outcome sets the value to `Win(1)`, clears the children and
returns; a `Lose` outcome is skipped; an `Unknown` outcome keeps the child
exactly when its incremented value is not below the current best, clearing
previously kept children when it is strictly better. -/
def cctLoop (recur : Nat → BoardValueTree) :
    List (Nat × Nat × NextBoardStatus) → BoardValueTree → BoardValueTree
  | [], tree => tree
  | (action, nextBoard, status) :: rest, tree =>
    match status with
    | .win => (tree.withValue ⟨some 1⟩).withChildren []
    | .lose => cctLoop recur rest tree
    | .unknown =>
      let child := recur nextBoard
      let childValueIncrement := child.value.increment
      if childValueIncrement.partialCmp tree.value = some .lt then
        cctLoop recur rest tree
      else
        let tree1 :=
          if childValueIncrement.partialCmp tree.value = some .gt then
            (tree.withValue childValueIncrement).withChildren []
          else tree
        cctLoop recur rest (tree1.withChildren (insertChild action child tree1.children))

/-- `create_checkmate_tree_unchecked`: depth-bounded negamax producing a
checkmate tree; depth 0 gives a childless `Unknown` node, otherwise the node
starts at `BoardValue::MIN` (`Lose(2)`) and the loop above folds over the
classified actions, recursing one ply deeper with the opposite player. -/
def createCheckmateTreeUnchecked (g : GameIface) (rule : GameRule) :
    Nat → Nat → Color → BoardValueTree
  | 0, board, player => .node board player ⟨Option.none⟩ []
  | maxDepth + 1, board, player =>
    cctLoop (fun nextBoard => createCheckmateTreeUnchecked g rule maxDepth nextBoard player.not)
      (nextBoardIter g board player rule) (.node board player ⟨some 2⟩ [])

/-- The body of the `for` loop of `compare_board_value_unchecked`, with the
recursive call abstracted as `recur`. The `Nat` argument `d` encodes the
claimed value `Some(d + 1)` (so `d = 0` is `BoardValue::MAX`, and the
decremented claim passed to `recur` lives at `d - 1`); validation restricts
the claimed value to `Win`/`Lose`, that is exactly to `Some(n)` with
`n ≥ 1`, so the encoding covers the whole domain reached from the public
entry points and the source's `try_decrement().unwrap()` never fails. -/
def cmpLoop (recur : Nat → Ordering) (d : Nat) :
    List (Nat × Nat × NextBoardStatus) → Ordering → Ordering
  | [], cmp => cmp
  | (_, nextBoard, status) :: rest, cmp =>
    match status with
    | .win => if d = 0 then .eq else .gt
    | .lose => cmpLoop recur d rest cmp
    | .unknown =>
      if d = 0 then
        cmpLoop recur d rest cmp
      else
        let nextCmp := recur nextBoard
        if nextCmp = .lt then .gt
        else cmpLoop recur d rest (ordMax cmp nextCmp.swap)

/-- `compare_board_value_unchecked`, with the claimed value `Some(d + 1)`
encoded by the `Nat` argument `d`. At `d = 0` (claim `Win(1)`) the loop
never recurses, so the function passed there is arbitrary and unused. -/
def compareBoardValueUnchecked (g : GameIface) (rule : GameRule) :
    Nat → Nat → Color → Ordering
  | 0, board, player =>
    cmpLoop (fun _ => .eq) 0 (nextBoardIter g board player rule) .lt
  | d + 1, board, player =>
    cmpLoop (fun nextBoard => compareBoardValueUnchecked g rule d nextBoard player.not)
      (d + 1) (nextBoardIter g board player rule) .lt

/-- The body of the `for` loop of `create_checkmate_tree_with_value_unchecked`
(same claimed-value encoding as `cmpLoop`): a `Win` outcome settles the node
immediately (`Equal` when the claim was `Win(1)`, otherwise `Greater` with
the value cleared to `Unknown`); a `Lose` outcome is skipped; an `Unknown`
outcome recurses on the decremented claim, aborting with `Greater` when the
child verdict is `Less`, keeping the child when it is `Equal`, and folding
the reversed child verdict into the accumulator. -/
def cctvLoop (recur : Nat → BoardValueTree × Ordering) (d : Nat) :
    List (Nat × Nat × NextBoardStatus) → BoardValueTree → Ordering →
      BoardValueTree × Ordering
  | [], tree, cmp => (tree, cmp)
  | (action, nextBoard, status) :: rest, tree, cmp =>
    match status with
    | .win =>
      if d = 0 then (tree.withChildren [], .eq)
      else ((tree.withValue ⟨Option.none⟩).withChildren [], .gt)
    | .lose => cctvLoop recur d rest tree cmp
    | .unknown =>
      if d = 0 then
        cctvLoop recur d rest tree cmp
      else
        let r := recur nextBoard
        if r.2 = .lt then ((tree.withValue ⟨Option.none⟩).withChildren [], .gt)
        else
          let tree1 := if r.2 = .eq then tree.withChildren (insertChild action r.1 tree.children) else tree
          cctvLoop recur d rest tree1 (ordMax cmp r.2.swap)

/-- `create_checkmate_tree_with_value_unchecked`, with the claimed value
`Some(d + 1)` encoded by `d`. The node starts at the claimed value; after the
loop, a non-`Equal` verdict clears the value to `Unknown` and drops the
children (the source's early returns already leave the tree in exactly that
cleared form, so applying the clearing uniformly is the same function). -/
def createCheckmateTreeWithValueUnchecked (g : GameIface) (rule : GameRule) :
    Nat → Nat → Color → BoardValueTree × Ordering
  | 0, board, player =>
    let r := cctvLoop (fun _ => (.node 0 .red ⟨Option.none⟩ [], .eq)) 0
      (nextBoardIter g board player rule) (.node board player ⟨some 1⟩ []) .lt
    if r.2 = .eq then r else ((r.1.withValue ⟨Option.none⟩).withChildren [], r.2)
  | d + 1, board, player =>
    let r := cctvLoop
      (fun nextBoard => createCheckmateTreeWithValueUnchecked g rule d nextBoard player.not)
      (d + 1) (nextBoardIter g board player rule)
      (.node board player ⟨some (d + 2)⟩ []) .lt
    if r.2 = .eq then r else ((r.1.withValue ⟨Option.none⟩).withChildren [], r.2)

/-- `evaluate_board_unchecked`: for `depth` from 1 to `search_depth`, compare
the board against the value `Some(depth)` (the parity-matching `Win`/`Lose`);
the first `Equal` yields a singleton interval, otherwise the loosest interval
consistent with the bound, directed by the parity of `search_depth`. -/
def evaluateBoardUnchecked (g : GameIface) (rule : GameRule) (board : Nat) (player : Color)
    (searchDepth : Nat) : Interval :=
  match (List.range searchDepth).find?
      (fun k => compareBoardValueUnchecked g rule k board player == .eq) with
  | some k => { left := ⟨some (k + 1)⟩, right := ⟨some (k + 1)⟩ }
  | Option.none =>
    if searchDepth % 2 = 0 then
      { left := ⟨some (searchDepth + 2)⟩, right := ⟨some (searchDepth + 1)⟩ }
    else
      { left := ⟨some (searchDepth + 1)⟩, right := ⟨some (searchDepth + 2)⟩ }

/-- The body of the `for` loop of `find_best_actions_unchecked`. The source
contains two panic sites (`unreachable!()` when a `Win` outcome coexists with
a value other than `Win(1)`, and `try_decrement().unwrap()`); a panic is
modelled as `Option.none`, and the wildcard arms below are the places where
the source would panic inside the nested `compare_board_value_unchecked`
call if it were handed a `Finished` claim. -/
def fbaLoop (g : GameIface) (rule : GameRule) (player : Color) (value : BoardValue)
    (valueInterval : Interval) : List (Nat × Nat × NextBoardStatus) → Option (List Nat)
  | [] => some []
  | (action, nextBoard, status) :: rest =>
    match status with
    | .win =>
      if value = BoardValue.MAX then
        (fbaLoop g rule player value valueInterval rest).map (action :: ·)
      else Option.none
    | .lose => fbaLoop g rule player value valueInterval rest
    | .unknown =>
      if value = BoardValue.MAX then
        fbaLoop g rule player value valueInterval rest
      else
        match value.tryDecrement with
        | Option.none => Option.none
        | some nextValue =>
          if nextValue.isUnknown then
            match valueInterval.left.tryDecrement with
            | Option.none => Option.none
            | some w =>
              match w.value with
              | some (j + 1) =>
                if compareBoardValueUnchecked g rule j nextBoard player.not ≠ Ordering.gt then
                  (fbaLoop g rule player value valueInterval rest).map (action :: ·)
                else fbaLoop g rule player value valueInterval rest
              | _ => Option.none
          else
            match nextValue.value with
            | some (j + 1) =>
              if compareBoardValueUnchecked g rule j nextBoard player.not = Ordering.eq then
                (fbaLoop g rule player value valueInterval rest).map (action :: ·)
              else fbaLoop g rule player value valueInterval rest
            | _ => Option.none

/-- `find_best_actions_unchecked`: depth 0 returns every legal action;
otherwise the board is evaluated, the singleton value (or `Unknown`) is
extracted, and the loop above selects the qualifying actions. `none` models
a panic of the source. -/
def findBestActionsUnchecked (g : GameIface) (rule : GameRule) (board : Nat) (player : Color)
    (searchDepth : Nat) : Option (List Nat) :=
  if searchDepth = 0 then
    some (g.legalActions board player true true rule.isRemoveAccepted)
  else
    let valueInterval := evaluateBoardUnchecked g rule board player searchDepth
    let value := valueInterval.single.getD BoardValue.unknown
    fbaLoop g rule player value valueInterval (nextBoardIter g board player rule)

/-- Public entry point `create_checkmate_tree`: validation (with the dummy
value `BoardValue::MAX`) then the unchecked search. -/
def createCheckmateTree (g : GameIface) (board : Nat) (player : Color) (maxDepth : Nat)
    (rule : GameRule) : Except ArgsValidationError BoardValueTree :=
  match validateArgs g board BoardValue.MAX rule with
  | some e => .error e
  | Option.none => .ok (createCheckmateTreeUnchecked g rule maxDepth board player)

/-- Public entry point `create_checkmate_tree_with_value`: validation, then
the unchecked search on the claimed value; a non-`Equal` verdict becomes a
`ValueMismatchError` carrying the direction. Validation guarantees the value
is `Some(d + 1)` for some `d`; the wildcard arm is unreachable. -/
def createCheckmateTreeWithValue (g : GameIface) (board : Nat) (value : BoardValue)
    (player : Color) (rule : GameRule) :
    Except CreateCheckmateTreeWithValueError BoardValueTree :=
  match validateArgs g board value rule with
  | some e => .error (.argsValidationError e)
  | Option.none =>
    match value.value with
    | some (d + 1) =>
      let r := createCheckmateTreeWithValueUnchecked g rule d board player
      if r.2 = .eq then .ok r.1 else .error (.valueMismatchError r.2)
    | _ => .error (.argsValidationError (.unsupportedValueError value))

/-- Public entry point `compare_board_value`. Validation guarantees the value
is `Some(d + 1)` for some `d`; the wildcard arm is unreachable. -/
def compareBoardValue (g : GameIface) (board : Nat) (value : BoardValue)
    (player : Color) (rule : GameRule) : Except ArgsValidationError Ordering :=
  match validateArgs g board value rule with
  | some e => .error e
  | Option.none =>
    match value.value with
    | some (d + 1) => .ok (compareBoardValueUnchecked g rule d board player)
    | _ => .error (.unsupportedValueError value)

/-- Public entry point `evaluate_board`. -/
def evaluateBoard (g : GameIface) (board : Nat) (player : Color) (searchDepth : Nat)
    (rule : GameRule) : Except ArgsValidationError Interval :=
  match validateArgs g board BoardValue.MAX rule with
  | some e => .error e
  | Option.none => .ok (evaluateBoardUnchecked g rule board player searchDepth)

/-- Public entry point `find_best_actions` (the inner `Option` models the
panic-freedom obligation of the unchecked search). -/
def findBestActions (g : GameIface) (board : Nat) (player : Color) (searchDepth : Nat)
    (rule : GameRule) : Except ArgsValidationError (Option (List Nat)) :=
  match validateArgs g board BoardValue.MAX rule with
  | some e => .error e
  | Option.none => .ok (findBestActionsUnchecked g rule board player searchDepth)

/-- Concrete collaborator instance used by witnesses: board 0 (nothing
surrounded) has the single legal action 0 leading to board 1, where the
mover red is the surrounded side — an immediate `Lose` outcome. -/
def loseGame : GameIface where
  legalActions := fun b _ _ _ _ => if b = 0 then [0] else []
  perform := fun _ _ => 1
  surroundedStatus := fun b => if b = 1 then .oneSide .red else .none

/-- Concrete collaborator instance used by witnesses: the single action of
board 0 surrounds green — an immediate `Win` outcome for the mover red. -/
def winGame : GameIface where
  legalActions := fun b _ _ _ _ => if b = 0 then [0] else []
  perform := fun _ _ => 1
  surroundedStatus := fun b => if b = 1 then .oneSide .green else .none

/-- Concrete collaborator instance with no legal action on any board. -/
def emptyGame : GameIface where
  legalActions := fun _ _ _ _ _ => []
  perform := fun _ _ => 0
  surroundedStatus := fun _ => .none

/-- Rule configuration used by witnesses (`GameRule::new(true)`:
remove accepted, `Judge::NextWins`). -/
def defaultRule : GameRule := { isRemoveAccepted := true, suicideAtkJudge := .nextWins }

/-- The checkmate-tree invariant of spec section 3: a node whose value is
`Win(1)` has no children, and every retained child's incremented value
equals its parent's value (recursively at every node). -/
inductive TreeGood : BoardValueTree → Prop where
  | node (boardRaw : Nat) (player : Color) (value : BoardValue)
      (children : List (Nat × BoardValueTree))
      (hleaf : value = ⟨some 1⟩ → children = [])
      (hval : ∀ a c, (a, c) ∈ children → c.value.increment = value)
      (hch : ∀ a c, (a, c) ∈ children → TreeGood c) :
      TreeGood (.node boardRaw player value children)

-- ***************************************************************************
--  Theorems
-- ***************************************************************************

lemma validateArgs_accepts (g : GameIface) (board : Nat) (v : BoardValue) (rule : GameRule)
    (hb : g.surroundedStatus board = SurroundedStatus.none)
    (hf : v.kind ≠ .finished) (hu : v.kind ≠ .unknown)
    (hj : rule.suicideAtkJudge ≠ Judge.draw) :
    validateArgs g board v rule = Option.none := by
  have h2 : (v.isFinished || v.isUnknown) = false := by
    simp [BoardValue.isFinished, BoardValue.isUnknown, hf, hu]
  have h3 : rule.suicideAtkJudge = .nextWins ∨ rule.suicideAtkJudge = .lastWins := by
    cases h : rule.suicideAtkJudge
    · exact Or.inr rfl
    · exact Or.inl rfl
    · exact absurd h hj
  simp [validateArgs, hb, h2, h3]

lemma finished_kind : BoardValue.finished.kind = .finished := rfl

lemma kind_lose_even (n : Nat) (h : (n + 1) % 2 = 0) :
    (⟨some (n + 1)⟩ : BoardValue).kind = .lose := by
  simp [BoardValue.kind, h]

lemma kind_win_odd (n : Nat) (h : (n + 1) % 2 = 1) :
    (⟨some (n + 1)⟩ : BoardValue).kind = .win := by
  simp [BoardValue.kind, h, Nat.mod_two_ne_zero]

lemma exists_some_of_kind_ne_unknown (v : BoardValue) (h : v.kind ≠ .unknown) :
    ∃ n, v.value = some n := by
  obtain ⟨x⟩ := v
  cases x with
  | none => exact absurd rfl h
  | some n => exact ⟨n, rfl⟩

lemma partialCmp_isSome (a b : BoardValue) (ha : a.kind ≠ .finished)
    (hb : b.kind ≠ .finished) : (a.partialCmp b).isSome := by
  by_cases hc : a.kind ≠ b.kind ∨ a.kind = .unknown ∨ a.kind = .finished
  · rw [BoardValue.partialCmp, if_pos hc]
    simp [BoardValueKind.partialCmp, ha, hb]
  · push_neg at hc
    obtain ⟨hab, hu, _⟩ := hc
    obtain ⟨x, hx⟩ := exists_some_of_kind_ne_unknown a hu
    obtain ⟨y, hy⟩ := exists_some_of_kind_ne_unknown b (by rw [← hab]; exact hu)
    rw [BoardValue.partialCmp, if_neg (by push_neg; exact ⟨hab, hu, ha⟩), hx, hy]
    rcases hk : a.kind with _ | _ | _ | _
    · simp
    · simp
    · exact absurd hk hu
    · exact absurd hk ha

/-- C5: the `Finished` value compares equal only to itself and is incomparable
to every other value; on non-`Finished` values the comparison is total, with
`Lose` values ordered by their number, `Win` values ordered by the reverse of
their number, and `Unknown` strictly between every `Lose` and every `Win`. -/
theorem boardValue_partial_order :
    BoardValue.finished.partialCmp BoardValue.finished = some .eq ∧
    (∀ v : BoardValue, v.kind ≠ .finished →
      BoardValue.finished.partialCmp v = Option.none ∧
      v.partialCmp BoardValue.finished = Option.none) ∧
    (∀ a b : BoardValue, a.kind ≠ .finished → b.kind ≠ .finished →
      (a.partialCmp b).isSome) ∧
    (∀ m n : Nat,
      ((⟨some (2 * m + 2)⟩ : BoardValue).partialCmp ⟨some (2 * n + 2)⟩ = some .lt ↔ m < n)) ∧
    (∀ m n : Nat,
      ((⟨some (2 * m + 1)⟩ : BoardValue).partialCmp ⟨some (2 * n + 1)⟩ = some .lt ↔ n < m)) ∧
    (∀ n : Nat,
      (⟨some (2 * n + 2)⟩ : BoardValue).partialCmp ⟨Option.none⟩ = some .lt) ∧
    (∀ n : Nat,
      (⟨(Option.none : Option Nat)⟩ : BoardValue).partialCmp ⟨some (2 * n + 1)⟩ = some .lt) := by
  have klose : ∀ m : Nat, (⟨some (2 * m + 2)⟩ : BoardValue).kind = .lose :=
    fun m => kind_lose_even (2 * m + 1) (by omega)
  have kwin : ∀ m : Nat, (⟨some (2 * m + 1)⟩ : BoardValue).kind = .win :=
    fun m => kind_win_odd (2 * m) (by omega)
  refine ⟨rfl, ?_, ?_, ?_, ?_, ?_, ?_⟩
  · intro v hv
    have hne : BoardValueKind.finished ≠ v.kind := fun hc => hv hc.symm
    constructor
    · simp [BoardValue.partialCmp, finished_kind, BoardValueKind.partialCmp, hne]
    · simp [BoardValue.partialCmp, finished_kind, BoardValueKind.partialCmp, hv]
  · exact partialCmp_isSome
  · intro m n
    have hcmp : compare (2 * m + 2) (2 * n + 2) = Ordering.lt ↔ m < n := by
      rw [Nat.compare_eq_lt]; omega
    rw [BoardValue.partialCmp, if_neg (by simp [klose])]
    simp [klose, hcmp]
  · intro m n
    have hcmp : compare (2 * n + 1) (2 * m + 1) = Ordering.lt ↔ n < m := by
      rw [Nat.compare_eq_lt]; omega
    rw [BoardValue.partialCmp, if_neg (by simp [kwin])]
    simp [kwin, hcmp]
  · intro n
    have h1 : BoardValueKind.lose.partialCmp BoardValueKind.unknown = some .lt := by decide
    have hu : (⟨(Option.none : Option Nat)⟩ : BoardValue).kind = .unknown := rfl
    rw [BoardValue.partialCmp, if_pos (by simp [klose, hu]), klose, hu, h1]
  · intro n
    have h1 : BoardValueKind.unknown.partialCmp BoardValueKind.win = some .lt := by decide
    have hu : (⟨(Option.none : Option Nat)⟩ : BoardValue).kind = .unknown := rfl
    rw [BoardValue.partialCmp, if_pos (by simp [kwin, hu]), kwin, hu, h1]

/-- Witness for C5: `Finished` is incomparable to `Unknown`, and `Lose(2)` is
comparable to `Win(1)`. -/
theorem boardValue_partial_order_witness :
    (BoardValue.unknown.kind ≠ .finished ∧
      BoardValue.finished.partialCmp BoardValue.unknown = Option.none) ∧
    (BoardValue.MIN.kind ≠ .finished ∧ BoardValue.MAX.kind ≠ .finished ∧
      (BoardValue.MIN.partialCmp BoardValue.MAX).isSome) :=
  ⟨⟨by decide, (boardValue_partial_order.2.1 BoardValue.unknown (by decide)).1⟩,
    ⟨by decide, by decide,
      boardValue_partial_order.2.2.1 BoardValue.MIN BoardValue.MAX (by decide) (by decide)⟩⟩

/-- C6: for every `BoardValue` other than `Finished`, `try_decrement` after
`increment` is the identity; `increment` maps `Unknown` to itself and follows
the numeric chain `Finished -> Win(1) -> Lose(2) -> Win(3) -> ...`; and
`try_decrement(Finished)` fails. -/
theorem increment_tryDecrement_roundtrip :
    (∀ v : BoardValue, v ≠ BoardValue.finished → v.increment.tryDecrement = some v) ∧
    BoardValue.unknown.increment = BoardValue.unknown ∧
    (∀ n : Nat, (⟨some n⟩ : BoardValue).increment = ⟨some (n + 1)⟩) ∧
    BoardValue.finished.increment = ⟨some 1⟩ ∧
    BoardValue.finished.tryDecrement = Option.none := by
  refine ⟨?_, rfl, fun n => rfl, rfl, rfl⟩
  intro v hv
  obtain ⟨x⟩ := v
  cases x with
  | none => rfl
  | some n => rfl

/-- Witness for C6 at the concrete value `Lose(4)`. -/
theorem increment_tryDecrement_roundtrip_witness :
    (⟨some 4⟩ : BoardValue) ≠ BoardValue.finished ∧
      (⟨some 4⟩ : BoardValue).increment.tryDecrement = some ⟨some 4⟩ :=
  ⟨by decide, increment_tryDecrement_roundtrip.1 ⟨some 4⟩ (by decide)⟩

/-- C9: `BoardValue::win` succeeds exactly on odd numbers, `BoardValue::lose`
exactly on positive even numbers, and every accepted number round-trips
through `try_unwrap`. -/
theorem win_lose_constructors :
    (∀ n : Nat, (BoardValue.win n).isSome ↔ n % 2 = 1) ∧
    (∀ n : Nat, (BoardValue.lose n).isSome ↔ n ≠ 0 ∧ n % 2 = 0) ∧
    (∀ n : Nat, ∀ v : BoardValue, BoardValue.win n = some v → v.tryUnwrap = some n) ∧
    (∀ n : Nat, ∀ v : BoardValue, BoardValue.lose n = some v → v.tryUnwrap = some n) := by
  refine ⟨?_, ?_, ?_, ?_⟩
  · intro n
    simp only [BoardValue.win]
    split <;> simp_all
  · intro n
    simp only [BoardValue.lose]
    split <;> simp_all
  · intro n v h
    simp only [BoardValue.win] at h
    split at h
    · cases h
      rename_i hodd
      obtain ⟨m, rfl⟩ : ∃ m, n = m + 1 := ⟨n - 1, by omega⟩
      rfl
    · cases h
  · intro n v h
    simp only [BoardValue.lose] at h
    split at h
    · cases h
      rename_i heven
      obtain ⟨m, rfl⟩ : ∃ m, n = m + 1 := ⟨n - 1, by omega⟩
      rfl
    · cases h

/-- Witness for C9 at the concrete numbers 3 and 4. -/
theorem win_lose_constructors_witness :
    BoardValue.win 3 = some ⟨some 3⟩ ∧ (⟨some 3⟩ : BoardValue).tryUnwrap = some 3 ∧
      BoardValue.lose 4 = some ⟨some 4⟩ ∧ (⟨some 4⟩ : BoardValue).tryUnwrap = some 4 :=
  ⟨by decide, win_lose_constructors.2.2.1 3 ⟨some 3⟩ (by decide), by decide,
    win_lose_constructors.2.2.2 4 ⟨some 4⟩ (by decide)⟩

lemma cctvLoop_snd_eq_cmpLoop (r1 : Nat → BoardValueTree × Ordering) (r2 : Nat → Ordering)
    (h : ∀ nb, (r1 nb).2 = r2 nb) (d : Nat) :
    ∀ (l : List (Nat × Nat × NextBoardStatus)) (t : BoardValueTree) (c : Ordering),
      (cctvLoop r1 d l t c).2 = cmpLoop r2 d l c := by
  intro l
  induction l with
  | nil => intro t c; rfl
  | cons hd tl ih =>
    intro t c
    obtain ⟨a, nb, st⟩ := hd
    cases st with
    | win => by_cases hd0 : d = 0 <;> simp [cctvLoop, cmpLoop, hd0]
    | lose =>
      simp only [cctvLoop, cmpLoop]
      exact ih t c
    | unknown =>
      by_cases hd0 : d = 0
      · subst hd0
        simp only [cctvLoop, cmpLoop, if_pos]
        exact ih t c
      · simp only [cctvLoop, cmpLoop, if_neg hd0]
        rw [← h nb]
        by_cases hlt : (r1 nb).2 = .lt
        · simp [hlt]
        · simp only [hlt, if_neg, if_false]
          exact ih _ _

lemma cctv_snd_eq_compare (g : GameIface) (rule : GameRule) :
    ∀ (d board : Nat) (player : Color),
      (createCheckmateTreeWithValueUnchecked g rule d board player).2 =
        compareBoardValueUnchecked g rule d board player := by
  intro d
  induction d with
  | zero =>
    intro board player
    have hl := cctvLoop_snd_eq_cmpLoop (fun _ => (.node 0 .red ⟨Option.none⟩ [], .eq))
      (fun _ => .eq) (fun _ => rfl) 0 (nextBoardIter g board player rule)
      (.node board player ⟨some 1⟩ []) .lt
    simp only [createCheckmateTreeWithValueUnchecked, compareBoardValueUnchecked]
    split <;> exact hl
  | succ d ih =>
    intro board player
    have hl := cctvLoop_snd_eq_cmpLoop
      (fun nb => createCheckmateTreeWithValueUnchecked g rule d nb player.not)
      (fun nb => compareBoardValueUnchecked g rule d nb player.not)
      (fun nb => ih nb player.not) (d + 1) (nextBoardIter g board player rule)
      (.node board player ⟨some (d + 2)⟩ []) .lt
    simp only [createCheckmateTreeWithValueUnchecked, compareBoardValueUnchecked]
    split <;> exact hl

/-- C1: the pure value comparison returns exactly the three-way ordering that
the value-guided tree construction computes, on every board, player, rule
and claimed value (the claimed value `Some(d + 1)` is encoded by `d`, which
ranges over exactly the values accepted by validation). -/
theorem compare_eq_withValue_ordering (g : GameIface) (rule : GameRule)
    (d board : Nat) (player : Color) :
    compareBoardValueUnchecked g rule d board player =
      (createCheckmateTreeWithValueUnchecked g rule d board player).2 :=
  (cctv_snd_eq_compare g rule d board player).symm

lemma cctLoop_all_lose (recur : Nat → BoardValueTree) :
    ∀ (l : List (Nat × Nat × NextBoardStatus)) (t : BoardValueTree),
      (∀ x ∈ l, x.2.2 = NextBoardStatus.lose) → cctLoop recur l t = t := by
  intro l
  induction l with
  | nil => intro t _; rfl
  | cons hd tl ih =>
    intro t h
    obtain ⟨a, nb, st⟩ := hd
    have hst : st = .lose := h _ (List.mem_cons_self _ _)
    subst hst
    simp only [cctLoop]
    exact ih t fun x hx => h x (List.mem_cons_of_mem _ hx)

lemma cmpLoop_all_lose (recur : Nat → Ordering) (d : Nat) :
    ∀ (l : List (Nat × Nat × NextBoardStatus)) (c : Ordering),
      (∀ x ∈ l, x.2.2 = NextBoardStatus.lose) → cmpLoop recur d l c = c := by
  intro l
  induction l with
  | nil => intro c _; rfl
  | cons hd tl ih =>
    intro c h
    obtain ⟨a, nb, st⟩ := hd
    have hst : st = .lose := h _ (List.mem_cons_self _ _)
    subst hst
    simp only [cmpLoop]
    exact ih c fun x hx => h x (List.mem_cons_of_mem _ hx)

/-- C10: on a validated board whose every classified action has an immediate
`Lose` outcome (in particular when there is no legal action), the bounded
search with any positive depth returns a childless root with value `Lose(2)`
(the pessimistic initial value survives unconfirmed), while comparing the
same board against the claimed value `Lose(2)` returns `Less`, because the
comparison accumulator starts at `Less` and `Lose`-outcome actions never
update it. -/
theorem all_lose_tree_and_compare (g : GameIface) (rule : GameRule) (board : Nat)
    (player : Color) (d : Nat)
    (hb : g.surroundedStatus board = SurroundedStatus.none)
    (hj : rule.suicideAtkJudge ≠ Judge.draw)
    (hl : ∀ x ∈ nextBoardIter g board player rule, x.2.2 = NextBoardStatus.lose) :
    createCheckmateTree g board player (d + 1) rule =
      .ok (.node board player ⟨some 2⟩ []) ∧
    compareBoardValue g board ⟨some 2⟩ player rule = .ok .lt := by
  have hvmax := validateArgs_accepts g board BoardValue.MAX rule hb
    (by decide) (by decide) hj
  have hvl2 := validateArgs_accepts g board ⟨some 2⟩ rule hb (by decide) (by decide) hj
  constructor
  · simp only [createCheckmateTree, hvmax, createCheckmateTreeUnchecked]
    rw [cctLoop_all_lose _ _ _ hl]
  · simp only [compareBoardValue, hvl2]
    show Except.ok (compareBoardValueUnchecked g rule 1 board player) = _
    simp only [compareBoardValueUnchecked]
    rw [cmpLoop_all_lose _ _ _ _ hl]

/-- Witness for C10 on the concrete all-lose game. -/
theorem all_lose_tree_and_compare_witness :
    loseGame.surroundedStatus 0 = SurroundedStatus.none ∧
    (∀ x ∈ nextBoardIter loseGame 0 .red defaultRule, x.2.2 = NextBoardStatus.lose) ∧
    createCheckmateTree loseGame 0 .red 1 defaultRule =
      .ok (.node 0 .red ⟨some 2⟩ []) ∧
    compareBoardValue loseGame 0 ⟨some 2⟩ .red defaultRule = .ok .lt :=
  ⟨rfl, by decide,
    (all_lose_tree_and_compare loseGame defaultRule 0 .red 0 rfl (by decide) (by decide)).1,
    (all_lose_tree_and_compare loseGame defaultRule 0 .red 0 rfl (by decide) (by decide)).2⟩

@[simp] lemma value_withChildren (t : BoardValueTree) (ch : List (Nat × BoardValueTree)) :
    (t.withChildren ch).value = t.value := by cases t; rfl

@[simp] lemma value_withValue (t : BoardValueTree) (v : BoardValue) :
    (t.withValue v).value = v := by cases t; rfl

@[simp] lemma children_withChildren (t : BoardValueTree) (ch : List (Nat × BoardValueTree)) :
    (t.withChildren ch).children = ch := by cases t; rfl

lemma cctvLoop_value_of_eq (recur : Nat → BoardValueTree × Ordering) (d : Nat) :
    ∀ (l : List (Nat × Nat × NextBoardStatus)) (t : BoardValueTree) (c : Ordering),
      (cctvLoop recur d l t c).2 = .eq → (cctvLoop recur d l t c).1.value = t.value := by
  intro l
  induction l with
  | nil => intro t c _; rfl
  | cons hd tl ih =>
    intro t c h
    obtain ⟨a, nb, st⟩ := hd
    cases st with
    | win =>
      by_cases hd0 : d = 0
      · subst hd0
        simp only [cctvLoop, if_pos]
        simp
      · simp only [cctvLoop, if_neg hd0] at h
        cases h
    | lose =>
      simp only [cctvLoop] at h ⊢
      exact ih t c h
    | unknown =>
      by_cases hd0 : d = 0
      · subst hd0
        simp only [cctvLoop, if_pos] at h ⊢
        exact ih t c h
      · simp only [cctvLoop, if_neg hd0] at h ⊢
        by_cases hlt : (recur nb).2 = .lt
        · simp only [hlt, if_pos] at h
          cases h
        · simp only [hlt, if_neg, if_false] at h ⊢
          rw [ih _ _ h]
          by_cases he : (recur nb).2 = .eq
          · simp [he]
          · simp [he]

lemma post_clear_eq (r : BoardValueTree × Ordering)
    (h : (if r.2 = .eq then r
      else ((r.1.withValue ⟨Option.none⟩).withChildren [], r.2)).2 = .eq) :
    (if r.2 = .eq then r
      else ((r.1.withValue ⟨Option.none⟩).withChildren [], r.2)) = r ∧ r.2 = .eq := by
  by_cases hr : r.2 = .eq
  · simp [hr]
  · simp [hr] at h

lemma cctv_value_of_eq (g : GameIface) (rule : GameRule) (d board : Nat) (player : Color)
    (h : (createCheckmateTreeWithValueUnchecked g rule d board player).2 = .eq) :
    (createCheckmateTreeWithValueUnchecked g rule d board player).1.value =
      ⟨some (d + 1)⟩ := by
  cases d with
  | zero =>
    simp only [createCheckmateTreeWithValueUnchecked] at h ⊢
    obtain ⟨heq, hr⟩ := post_clear_eq _ h
    rw [heq]
    exact cctvLoop_value_of_eq _ _ _ _ _ hr
  | succ d =>
    simp only [createCheckmateTreeWithValueUnchecked] at h ⊢
    obtain ⟨heq, hr⟩ := post_clear_eq _ h
    rw [heq]
    exact cctvLoop_value_of_eq _ _ _ _ _ hr

/-- Counterexample to C2 as stated: a validated input (board not finished,
judge not draw) on which `create_checkmate_tree` returns a tree whose root
value `Lose(2)` is a `Lose` value, yet `create_checkmate_tree_with_value` on
exactly that value does not succeed: it reports `ValueMismatchError(Less)`
instead of `Equal`. -/
theorem withValue_fails_on_tree_value :
    validateArgs loseGame 0 ⟨some 2⟩ defaultRule = Option.none ∧
    createCheckmateTree loseGame 0 .red 1 defaultRule =
      .ok (.node 0 .red ⟨some 2⟩ []) ∧
    (⟨some 2⟩ : BoardValue).kind = .lose ∧
    createCheckmateTreeWithValue loseGame 0 ⟨some 2⟩ .red defaultRule =
      .error (.valueMismatchError .lt) :=
  ⟨rfl, rfl, rfl, rfl⟩

/-- C2 amended: for every validated input, if `create_checkmate_tree` returns
a tree whose root value is the `Win` or `Lose` value `Some(n + 1)` and the
pure comparison additionally confirms that value (reports `Equal`, which by
C1 is the verdict `create_checkmate_tree_with_value` itself computes), then
`create_checkmate_tree_with_value` succeeds — no `ValueMismatchError` — and
returns a tree with the same root value. The extra comparison hypothesis is
forced by the counterexample: the bounded search may return the pessimistic
root value `Lose(2)` without ever confirming it. -/
theorem withValue_agrees_on_confirmed_tree_value (g : GameIface) (rule : GameRule)
    (depth board n : Nat) (player : Color)
    (hval : validateArgs g board ⟨some (n + 1)⟩ rule = Option.none)
    (htree : (createCheckmateTreeUnchecked g rule depth board player).value = ⟨some (n + 1)⟩)
    (hcmp : compareBoardValueUnchecked g rule n board player = .eq) :
    ∃ t : BoardValueTree,
      createCheckmateTreeWithValue g board ⟨some (n + 1)⟩ player rule = .ok t ∧
      t.value = ⟨some (n + 1)⟩ := by
  have hsnd : (createCheckmateTreeWithValueUnchecked g rule n board player).2 = .eq := by
    rw [cctv_snd_eq_compare]
    exact hcmp
  refine ⟨(createCheckmateTreeWithValueUnchecked g rule n board player).1, ?_, ?_⟩
  · simp only [createCheckmateTreeWithValue, hval]
    rw [if_pos hsnd]
  · exact cctv_value_of_eq g rule n board player hsnd

/-- Witness for the amended C2 on the concrete immediate-win game, with
value `Win(1)`. -/
theorem withValue_agrees_on_confirmed_tree_value_witness :
    validateArgs winGame 0 ⟨some 1⟩ defaultRule = Option.none ∧
    (createCheckmateTreeUnchecked winGame defaultRule 1 0 .red).value = ⟨some 1⟩ ∧
    compareBoardValueUnchecked winGame defaultRule 0 0 .red = .eq ∧
    ∃ t : BoardValueTree,
      createCheckmateTreeWithValue winGame 0 ⟨some 1⟩ .red defaultRule = .ok t ∧
      t.value = ⟨some 1⟩ :=
  ⟨rfl, rfl, rfl,
    withValue_agrees_on_confirmed_tree_value winGame defaultRule 1 0 0 .red rfl rfl rfl⟩

/-- C3: if no depth `d` in `1..=search_depth` makes the comparison report
`Equal` against the parity-matching value `Some(d)` (encoded here as index
`k = d - 1`), `evaluate_board` returns the loosest interval consistent with
the bound: `[Lose(bound + 2), Win(bound + 1)]` for an even bound and
`[Lose(bound + 1), Win(bound + 2)]` for an odd bound; in particular, with
bound 0 it always returns `[Lose(2), Win(1)]`. -/
theorem evaluate_board_unresolved (g : GameIface) (rule : GameRule) (board : Nat)
    (player : Color) (searchDepth : Nat)
    (h : ∀ k, k < searchDepth → compareBoardValueUnchecked g rule k board player ≠ .eq) :
    (searchDepth % 2 = 0 →
      evaluateBoardUnchecked g rule board player searchDepth =
        ⟨⟨some (searchDepth + 2)⟩, ⟨some (searchDepth + 1)⟩⟩ ∧
      (⟨some (searchDepth + 2)⟩ : BoardValue).kind = .lose ∧
      (⟨some (searchDepth + 1)⟩ : BoardValue).kind = .win) ∧
    (searchDepth % 2 = 1 →
      evaluateBoardUnchecked g rule board player searchDepth =
        ⟨⟨some (searchDepth + 1)⟩, ⟨some (searchDepth + 2)⟩⟩ ∧
      (⟨some (searchDepth + 1)⟩ : BoardValue).kind = .lose ∧
      (⟨some (searchDepth + 2)⟩ : BoardValue).kind = .win) ∧
    evaluateBoardUnchecked g rule board player 0 = ⟨⟨some 2⟩, ⟨some 1⟩⟩ := by
  have hfind : (List.range searchDepth).find?
      (fun k => compareBoardValueUnchecked g rule k board player == .eq) = Option.none := by
    rw [List.find?_eq_none]
    intro k hk h2
    have hbe : ∀ a b : Ordering, (a == b) = true → a = b := fun a b hab => by
      cases a <;> cases b <;> first | rfl | exact absurd hab (by decide)
    exact h k (List.mem_range.mp hk) (hbe _ _ h2)
  refine ⟨?_, ?_, rfl⟩
  · intro hpar
    refine ⟨?_, kind_lose_even (searchDepth + 1) (by omega), kind_win_odd searchDepth (by omega)⟩
    simp [evaluateBoardUnchecked, hfind, hpar]
  · intro hpar
    have hne : ¬ searchDepth % 2 = 0 := by omega
    refine ⟨?_, kind_lose_even searchDepth (by omega), kind_win_odd (searchDepth + 1) (by omega)⟩
    simp [evaluateBoardUnchecked, hfind, hne]

/-- Witness for C3 on the collaborator with no legal actions, bound 2. -/
theorem evaluate_board_unresolved_witness :
    (∀ k, k < 2 → compareBoardValueUnchecked emptyGame defaultRule k 0 .red ≠ .eq) ∧
    evaluateBoardUnchecked emptyGame defaultRule 0 .red 2 = ⟨⟨some 4⟩, ⟨some 3⟩⟩ :=
  ⟨by decide,
    ((evaluate_board_unresolved emptyGame defaultRule 0 .red 2 (by decide)).1 rfl).1⟩

lemma value_none_of_kind_unknown (v : BoardValue) (h : v.kind = .unknown) :
    v.value = Option.none := by
  obtain ⟨x⟩ := v
  cases x with
  | none => rfl
  | some n =>
    exfalso
    cases n with
    | zero => simp [BoardValue.kind] at h
    | succ m =>
      by_cases hp : (m + 1) % 2 = 0
      · simp [BoardValue.kind, hp] at h
      · simp [BoardValue.kind, hp] at h

lemma value_zero_of_kind_finished (v : BoardValue) (h : v.kind = .finished) :
    v.value = some 0 := by
  obtain ⟨x⟩ := v
  cases x with
  | none => simp [BoardValue.kind] at h
  | some n =>
    cases n with
    | zero => rfl
    | succ m =>
      exfalso
      by_cases hp : (m + 1) % 2 = 0
      · simp [BoardValue.kind, hp] at h
      · simp [BoardValue.kind, hp] at h

lemma kind_ne_finished_iff (v : BoardValue) : v.kind ≠ .finished ↔ v.value ≠ some 0 := by
  constructor
  · intro h hc
    obtain ⟨x⟩ := v
    cases hc
    exact h rfl
  · intro h hc
    exact h (value_zero_of_kind_finished v hc)

lemma kind_partialCmp_eq : ∀ k1 k2 : BoardValueKind, k1.partialCmp k2 = some .eq → k1 = k2 := by
  intro k1 k2 h
  cases k1 <;> cases k2 <;> first | rfl | exact absurd h (by decide)

lemma eq_of_partialCmp_eq (a b : BoardValue) (h : a.partialCmp b = some .eq) : a = b := by
  rw [BoardValue.partialCmp] at h
  split at h
  · rename_i hc
    have hk := kind_partialCmp_eq _ _ h
    rcases hc with h1 | h1 | h1
    · exact absurd hk h1
    · have hva : a.value = Option.none := value_none_of_kind_unknown a h1
      have hvb : b.value = Option.none := value_none_of_kind_unknown b (by rw [← hk]; exact h1)
      obtain ⟨x⟩ := a
      obtain ⟨y⟩ := b
      simp only at hva hvb
      rw [hva, hvb]
    · have hva : a.value = some 0 := value_zero_of_kind_finished a h1
      have hvb : b.value = some 0 := value_zero_of_kind_finished b (by rw [← hk]; exact h1)
      obtain ⟨x⟩ := a
      obtain ⟨y⟩ := b
      simp only at hva hvb
      rw [hva, hvb]
  · rename_i hc
    push_neg at hc
    obtain ⟨hab, hu, hf⟩ := hc
    obtain ⟨x, hx⟩ := exists_some_of_kind_ne_unknown a hu
    obtain ⟨y, hy⟩ := exists_some_of_kind_ne_unknown b (by rw [← hab]; exact hu)
    rw [hx, hy] at h
    rcases hk : a.kind with _ | _ | _ | _ <;> rw [hk] at h
    · simp only [Option.some.injEq] at h
      have hxy : y = x := Nat.compare_eq_eq.mp h
      obtain ⟨xv⟩ := a
      obtain ⟨yv⟩ := b
      simp only at hx hy
      rw [hx, hy, hxy]
    · simp only [Option.some.injEq] at h
      have hxy : x = y := Nat.compare_eq_eq.mp h
      obtain ⟨xv⟩ := a
      obtain ⟨yv⟩ := b
      simp only at hx hy
      rw [hx, hy, hxy]
    · exact absurd hk hu
    · exact absurd hk hf

lemma increment_value_ne_zero (v : BoardValue) : v.increment.value ≠ some 0 := by
  obtain ⟨x⟩ := v
  cases x <;> simp [BoardValue.increment]

lemma increment_value_ne_one (v : BoardValue) (h : v.value ≠ some 0) :
    v.increment.value ≠ some 1 := by
  obtain ⟨x⟩ := v
  cases x with
  | none => simp [BoardValue.increment]
  | some n =>
    cases n with
    | zero => exact absurd rfl h
    | succ m => simp [BoardValue.increment]

lemma mem_insertChild (a : Nat) (c : BoardValueTree) :
    ∀ (l : List (Nat × BoardValueTree)) (x : Nat × BoardValueTree),
      x ∈ insertChild a c l → x = (a, c) ∨ x ∈ l := by
  intro l
  induction l with
  | nil =>
    intro x hx
    simp only [insertChild, List.mem_singleton] at hx
    exact Or.inl hx
  | cons hd tl ih =>
    intro x hx
    obtain ⟨a1, c1⟩ := hd
    simp only [insertChild] at hx
    split at hx
    · rcases List.mem_cons.mp hx with h | h
      · exact Or.inl h
      · exact Or.inr (List.mem_cons_of_mem _ h)
    · rcases List.mem_cons.mp hx with h | h
      · exact Or.inr (h ▸ List.mem_cons_self _ _)
      · rcases ih x h with h2 | h2
        · exact Or.inl h2
        · exact Or.inr (List.mem_cons_of_mem _ h2)

lemma treeGood_of_parts (t : BoardValueTree)
    (hleaf : t.value = ⟨some 1⟩ → t.children = [])
    (hval : ∀ a c, (a, c) ∈ t.children → c.value.increment = t.value)
    (hch : ∀ a c, (a, c) ∈ t.children → TreeGood c) : TreeGood t := by
  obtain ⟨br, pl, v, ch⟩ := t
  exact TreeGood.node br pl v ch hleaf hval hch

lemma cctLoop_good (recur : Nat → BoardValueTree)
    (hrec : ∀ nb, TreeGood (recur nb) ∧ (recur nb).value.value ≠ some 0) :
    ∀ (l : List (Nat × Nat × NextBoardStatus)) (t : BoardValueTree),
      (∀ a c, (a, c) ∈ t.children → c.value.increment = t.value ∧ TreeGood c) →
      t.value.value ≠ some 0 → t.value.value ≠ some 1 →
      TreeGood (cctLoop recur l t) ∧ (cctLoop recur l t).value.value ≠ some 0 := by
  intro l
  induction l with
  | nil =>
    intro t hch h0 h1
    refine ⟨treeGood_of_parts t ?_ (fun a c hc => (hch a c hc).1) (fun a c hc => (hch a c hc).2), h0⟩
    intro hv
    exact absurd (by rw [hv] : t.value.value = some 1) h1
  | cons hd tl ih =>
    intro t hch h0 h1
    obtain ⟨a, nb, st⟩ := hd
    cases st with
    | win =>
      simp only [cctLoop]
      constructor
      · refine treeGood_of_parts _ (fun _ => by simp) ?_ ?_ <;>
          (intro a' c' hc; simp at hc)
      · simp
    | lose =>
      simp only [cctLoop]
      exact ih t hch h0 h1
    | unknown =>
      simp only [cctLoop]
      obtain ⟨hg, hnz⟩ := hrec nb
      have hcv0 : ((recur nb).value.increment).value ≠ some 0 := increment_value_ne_zero _
      have hcv1 : ((recur nb).value.increment).value ≠ some 1 := increment_value_ne_one _ hnz
      by_cases hlt : ((recur nb).value.increment).partialCmp t.value = some .lt
      · rw [if_pos hlt]
        exact ih t hch h0 h1
      · rw [if_neg hlt]
        by_cases hgt : ((recur nb).value.increment).partialCmp t.value = some .gt
        · rw [if_pos hgt]
          apply ih
          · intro a' c' hmem
            simp only [children_withChildren] at hmem
            rcases mem_insertChild _ _ _ _ hmem with h2 | h2
            · obtain ⟨rfl, rfl⟩ := Prod.mk.injEq .. ▸ h2
              constructor
              · simp
              · exact hg
            · simp at h2
          · simp [hcv0]
          · simp [hcv1]
        · rw [if_neg hgt]
          have heqv : (recur nb).value.increment = t.value := by
            have hs := partialCmp_isSome ((recur nb).value.increment) t.value
              ((kind_ne_finished_iff _).mpr hcv0) ((kind_ne_finished_iff _).mpr h0)
            rcases ho : ((recur nb).value.increment).partialCmp t.value with _ | o
            · rw [ho] at hs
              cases hs
            · cases o
              · exact absurd ho hlt
              · exact eq_of_partialCmp_eq _ _ ho
              · exact absurd ho hgt
          apply ih
          · intro a' c' hmem
            simp only [children_withChildren] at hmem
            rcases mem_insertChild _ _ _ _ hmem with h2 | h2
            · obtain ⟨rfl, rfl⟩ := Prod.mk.injEq .. ▸ h2
              constructor
              · simp [heqv]
              · exact hg
            · have := hch a' c' h2
              simpa using this
          · simpa using h0
          · simpa using h1

lemma cct_good (g : GameIface) (rule : GameRule) :
    ∀ (d board : Nat) (player : Color),
      TreeGood (createCheckmateTreeUnchecked g rule d board player) ∧
      (createCheckmateTreeUnchecked g rule d board player).value.value ≠ some 0 := by
  intro d
  induction d with
  | zero =>
    intro board player
    constructor
    · exact treeGood_of_parts _ (fun _ => rfl) (fun a c hc => by cases hc) (fun a c hc => by cases hc)
    · simp [createCheckmateTreeUnchecked, BoardValueTree.value]
  | succ d ih =>
    intro board player
    simp only [createCheckmateTreeUnchecked]
    exact cctLoop_good _ (fun nb => ih nb player.not) _ _
      (fun a c hc => by cases hc) (by simp [BoardValueTree.value]) (by simp [BoardValueTree.value])

/-- C4: every tree returned by `create_checkmate_tree` satisfies the
checkmate-tree invariant: a node whose value is `Win(1)` has no children,
and every retained child's incremented value equals its parent's value. -/
theorem checkmate_tree_invariant (g : GameIface) (rule : GameRule) (board : Nat)
    (player : Color) (maxDepth : Nat) (t : BoardValueTree)
    (h : createCheckmateTree g board player maxDepth rule = .ok t) :
    TreeGood t := by
  simp only [createCheckmateTree] at h
  split at h
  · cases h
  · cases h
    exact (cct_good g rule maxDepth board player).1

/-- Witness for C4: the tree produced at depth 1 on the immediate-win game
satisfies the invariant. -/
theorem checkmate_tree_invariant_witness :
    TreeGood (.node 0 .red ⟨some 1⟩ []) :=
  checkmate_tree_invariant winGame defaultRule 0 .red 1 (.node 0 .red ⟨some 1⟩ []) rfl

lemma kind_beq_iff (k1 k2 : BoardValueKind) : (k1 == k2) = true ↔ k1 = k2 := by
  cases k1 <;> cases k2 <;> decide

lemma isFinished_iff (v : BoardValue) : v.isFinished = true ↔ v.value = some 0 := by
  rw [BoardValue.isFinished, kind_beq_iff]
  constructor
  · exact value_zero_of_kind_finished v
  · intro h
    obtain ⟨x⟩ := v
    simp only at h
    subst h
    rfl

lemma isUnknown_iff (v : BoardValue) : v.isUnknown = true ↔ v.value = Option.none := by
  rw [BoardValue.isUnknown, kind_beq_iff]
  constructor
  · exact value_none_of_kind_unknown v
  · intro h
    obtain ⟨x⟩ := v
    simp only at h
    subst h
    rfl

lemma validateArgs_none_iff (g : GameIface) (board : Nat) (v : BoardValue) (rule : GameRule) :
    validateArgs g board v rule = Option.none ↔
      (g.surroundedStatus board = SurroundedStatus.none ∧ v.value ≠ Option.none ∧
        v.value ≠ some 0 ∧ rule.suicideAtkJudge ≠ Judge.draw) := by
  rw [validateArgs]
  by_cases h1 : g.surroundedStatus board ≠ SurroundedStatus.none
  · rw [if_pos h1]
    constructor
    · intro h; cases h
    · rintro ⟨hb, -⟩
      exact absurd hb h1
  · push_neg at h1
    rw [if_neg (fun hc => hc h1)]
    by_cases h2 : (v.isFinished || v.isUnknown) = true
    · rw [if_pos h2]
      constructor
      · intro h; cases h
      · rintro ⟨-, hnu, hnf, -⟩
        rcases (by simpa using h2 : v.isFinished = true ∨ v.isUnknown = true) with hf | hu
        · exact absurd ((isFinished_iff v).mp hf) hnf
        · exact absurd ((isUnknown_iff v).mp hu) hnu
    · rw [if_neg h2]
      have hvals : v.value ≠ Option.none ∧ v.value ≠ some 0 := by
        constructor
        · intro hc
          exact h2 (by simp [(isUnknown_iff v).mpr hc])
        · intro hc
          exact h2 (by simp [(isFinished_iff v).mpr hc])
      by_cases h3 : ¬(rule.suicideAtkJudge = Judge.nextWins ∨ rule.suicideAtkJudge = Judge.lastWins)
      · rw [if_pos h3]
        constructor
        · intro h; cases h
        · rintro ⟨-, -, -, hd⟩
          exfalso
          apply h3
          cases hj : rule.suicideAtkJudge
          · exact Or.inr rfl
          · exact Or.inl rfl
          · exact absurd hj hd
      · rw [if_neg h3]
        simp only [not_not] at h3
        constructor
        · intro _
          refine ⟨h1, hvals.1, hvals.2, ?_⟩
          rcases h3 with h | h <;> rw [h] <;> intro hc <;> cases hc
        · intro _
          rfl

lemma error_iff_validate_cct (g : GameIface) (board : Nat) (player : Color)
    (depth : Nat) (rule : GameRule) :
    (∃ e, createCheckmateTree g board player depth rule = .error e) ↔
      ¬ validateArgs g board BoardValue.MAX rule = Option.none := by
  rw [createCheckmateTree]
  constructor
  · rintro ⟨e, he⟩ hnone
    rw [hnone] at he
    exact Except.noConfusion he
  · intro hne
    rcases hv : validateArgs g board BoardValue.MAX rule with _ | e
    · exact absurd hv hne
    · exact ⟨e, rfl⟩

lemma error_iff_validate_eval (g : GameIface) (board : Nat) (player : Color)
    (depth : Nat) (rule : GameRule) :
    (∃ e, evaluateBoard g board player depth rule = .error e) ↔
      ¬ validateArgs g board BoardValue.MAX rule = Option.none := by
  rw [evaluateBoard]
  constructor
  · rintro ⟨e, he⟩ hnone
    rw [hnone] at he
    exact Except.noConfusion he
  · intro hne
    rcases hv : validateArgs g board BoardValue.MAX rule with _ | e
    · exact absurd hv hne
    · exact ⟨e, rfl⟩

lemma error_iff_validate_fba (g : GameIface) (board : Nat) (player : Color)
    (depth : Nat) (rule : GameRule) :
    (∃ e, findBestActions g board player depth rule = .error e) ↔
      ¬ validateArgs g board BoardValue.MAX rule = Option.none := by
  rw [findBestActions]
  constructor
  · rintro ⟨e, he⟩ hnone
    rw [hnone] at he
    exact Except.noConfusion he
  · intro hne
    rcases hv : validateArgs g board BoardValue.MAX rule with _ | e
    · exact absurd hv hne
    · exact ⟨e, rfl⟩

lemma error_iff_validate_cmp (g : GameIface) (board : Nat) (value : BoardValue)
    (player : Color) (rule : GameRule) :
    (∃ e, compareBoardValue g board value player rule = .error e) ↔
      ¬ validateArgs g board value rule = Option.none := by
  rw [compareBoardValue]
  constructor
  · rintro ⟨e, he⟩ hnone
    rw [hnone] at he
    obtain ⟨-, hn0, hn1, -⟩ := (validateArgs_none_iff g board value rule).mp hnone
    rcases hval : value.value with _ | n
    · exact hn0 hval
    · rcases n with _ | d
      · exact hn1 hval
      · rw [hval] at he
        exact Except.noConfusion he
  · intro hne
    rcases hv : validateArgs g board value rule with _ | e
    · exact absurd hv hne
    · exact ⟨e, rfl⟩

lemma error_iff_validate_cctv (g : GameIface) (board : Nat) (value : BoardValue)
    (player : Color) (rule : GameRule) :
    (∃ e, createCheckmateTreeWithValue g board value player rule =
      .error (.argsValidationError e)) ↔
      ¬ validateArgs g board value rule = Option.none := by
  rw [createCheckmateTreeWithValue]
  constructor
  · rintro ⟨e, he⟩ hnone
    rw [hnone] at he
    obtain ⟨-, hn0, hn1, -⟩ := (validateArgs_none_iff g board value rule).mp hnone
    rcases hval : value.value with _ | n
    · exact hn0 hval
    · rcases n with _ | d
      · exact hn1 hval
      · rw [hval] at he
        have he2 : (if (createCheckmateTreeWithValueUnchecked g rule d board player).2 =
              Ordering.eq
            then Except.ok (createCheckmateTreeWithValueUnchecked g rule d board player).1
            else Except.error (CreateCheckmateTreeWithValueError.valueMismatchError
              (createCheckmateTreeWithValueUnchecked g rule d board player).2)) =
            Except.error (CreateCheckmateTreeWithValueError.argsValidationError e) := he
        split at he2
        · exact Except.noConfusion he2
        · injection he2 with h2
          exact CreateCheckmateTreeWithValueError.noConfusion h2
  · intro hne
    rcases hv : validateArgs g board value rule with _ | e
    · exact absurd hv hne
    · exact ⟨e, rfl⟩

/-- C7: each of the five public entry points returns a validation error, before
any search, exactly when the board is already game-over, or the rule's
suicide-attack judge is `Draw`, or — for the two value-taking entry points —
the supplied value is `Unknown` or `Finished`; on accepted inputs the result
is ok (or, for the value-guided entry point, possibly a `ValueMismatchError`,
which is not a validation error), so no validation error arises mid-search. -/
theorem entry_point_validation (g : GameIface) (board : Nat) (player : Color)
    (depth : Nat) (value : BoardValue) (rule : GameRule) :
    ((∃ e, createCheckmateTree g board player depth rule = .error e) ↔
      (g.surroundedStatus board ≠ .none ∨ rule.suicideAtkJudge = .draw)) ∧
    ((∃ e, createCheckmateTreeWithValue g board value player rule =
        .error (.argsValidationError e)) ↔
      (g.surroundedStatus board ≠ .none ∨ value.value = Option.none ∨
        value.value = some 0 ∨ rule.suicideAtkJudge = .draw)) ∧
    ((∃ e, compareBoardValue g board value player rule = .error e) ↔
      (g.surroundedStatus board ≠ .none ∨ value.value = Option.none ∨
        value.value = some 0 ∨ rule.suicideAtkJudge = .draw)) ∧
    ((∃ e, evaluateBoard g board player depth rule = .error e) ↔
      (g.surroundedStatus board ≠ .none ∨ rule.suicideAtkJudge = .draw)) ∧
    ((∃ e, findBestActions g board player depth rule = .error e) ↔
      (g.surroundedStatus board ≠ .none ∨ rule.suicideAtkJudge = .draw)) := by
  have t1 : BoardValue.MAX.value ≠ Option.none := by decide
  have t2 : BoardValue.MAX.value ≠ some 0 := by decide
  refine ⟨?_, ?_, ?_, ?_, ?_⟩
  · rw [error_iff_validate_cct, validateArgs_none_iff]
    tauto
  · rw [error_iff_validate_cctv, validateArgs_none_iff]
    tauto
  · rw [error_iff_validate_cmp, validateArgs_none_iff]
    tauto
  · rw [error_iff_validate_eval, validateArgs_none_iff]
    tauto
  · rw [error_iff_validate_fba, validateArgs_none_iff]
    tauto

lemma cmpLoop_zero (recur : Nat → Ordering) :
    ∀ (l : List (Nat × Nat × NextBoardStatus)) (c : Ordering),
      cmpLoop recur 0 l c =
        if l.any (fun x => x.2.2 == NextBoardStatus.win) then .eq else c := by
  intro l
  induction l with
  | nil => intro c; rfl
  | cons hd tl ih =>
    intro c
    obtain ⟨a, nb, st⟩ := hd
    cases st with
    | win => simp [cmpLoop]
    | lose =>
      rw [show ((a, nb, NextBoardStatus.lose) :: tl).any (fun x => x.2.2 == NextBoardStatus.win)
        = tl.any (fun x => x.2.2 == NextBoardStatus.win) from rfl]
      simp only [cmpLoop]
      exact ih c
    | unknown =>
      rw [show ((a, nb, NextBoardStatus.unknown) :: tl).any (fun x => x.2.2 == NextBoardStatus.win)
        = tl.any (fun x => x.2.2 == NextBoardStatus.win) from rfl]
      simp only [cmpLoop, if_pos rfl]
      exact ih c

lemma compare_zero_eq_iff (g : GameIface) (rule : GameRule) (board : Nat) (player : Color) :
    compareBoardValueUnchecked g rule 0 board player = .eq ↔
      (nextBoardIter g board player rule).any (fun x => x.2.2 == NextBoardStatus.win) = true := by
  rw [compareBoardValueUnchecked, cmpLoop_zero]
  split
  · rename_i h
    simp [h]
  · rename_i h
    simp [h]

lemma find?_cons_true {α : Type} (p : α → Bool) (a : α) (l : List α) (h : p a = true) :
    List.find? p (a :: l) = some a := by
  simp [List.find?, h]

lemma eval_single_of_win (g : GameIface) (rule : GameRule) (board : Nat) (player : Color)
    (s : Nat) (hs : 1 ≤ s)
    (hw : (nextBoardIter g board player rule).any
      (fun x => x.2.2 == NextBoardStatus.win) = true) :
    evaluateBoardUnchecked g rule board player s = ⟨⟨some 1⟩, ⟨some 1⟩⟩ := by
  obtain ⟨t, rfl⟩ : ∃ t, s = t + 1 := ⟨s - 1, by omega⟩
  have h0 : (compareBoardValueUnchecked g rule 0 board player == Ordering.eq) = true := by
    rw [(compare_zero_eq_iff g rule board player).mpr hw]
    rfl
  rw [evaluateBoardUnchecked, List.range_succ_eq_map,
    find?_cons_true (fun k => compareBoardValueUnchecked g rule k board player == Ordering.eq)
      0 (List.map Nat.succ (List.range t)) h0]

lemma eval_cases (g : GameIface) (rule : GameRule) (board : Nat) (player : Color) (s : Nat) :
    (∃ k, evaluateBoardUnchecked g rule board player s = ⟨⟨some (k + 1)⟩, ⟨some (k + 1)⟩⟩) ∨
    evaluateBoardUnchecked g rule board player s =
      (if s % 2 = 0 then ⟨⟨some (s + 2)⟩, ⟨some (s + 1)⟩⟩
        else ⟨⟨some (s + 1)⟩, ⟨some (s + 2)⟩⟩) := by
  rw [evaluateBoardUnchecked]
  rcases h : (List.range s).find?
      (fun k => compareBoardValueUnchecked g rule k board player == .eq) with _ | k
  · right
    rfl
  · left
    exact ⟨k, rfl⟩

lemma isUnknown_some (n : Nat) : (⟨some n⟩ : BoardValue).isUnknown = false := by
  cases n with
  | zero => rfl
  | succ m =>
    rw [BoardValue.isUnknown]
    by_cases hp : (m + 1) % 2 = 0 <;> simp [BoardValue.kind, hp]

lemma single_of_pair (v : BoardValue) : (⟨v, v⟩ : Interval).single = some v := by
  simp [Interval.single]

lemma single_of_ne (a b : BoardValue) (h : a ≠ b) :
    (⟨a, b⟩ : Interval).single = Option.none := by
  simp [Interval.single, h]

lemma fbaLoop_isSome (g : GameIface) (rule : GameRule) (player : Color)
    (value : BoardValue) (iv : Interval) :
    ∀ (l : List (Nat × Nat × NextBoardStatus)),
      (∀ x ∈ l, x.2.2 = NextBoardStatus.win → value = BoardValue.MAX) →
      (value = BoardValue.unknown ∨ ∃ k, value = ⟨some (k + 1)⟩) →
      (value = BoardValue.unknown → ∃ m, iv.left = ⟨some (m + 2)⟩) →
      (fbaLoop g rule player value iv l).isSome := by
  intro l
  induction l with
  | nil => intro _ _ _; rfl
  | cons hd tl ih =>
    intro hwin hv hleft
    have ih' := ih (fun x hx => hwin x (List.mem_cons_of_mem _ hx)) hv hleft
    obtain ⟨r, hr⟩ := Option.isSome_iff_exists.mp ih'
    obtain ⟨a, nb, st⟩ := hd
    cases st with
    | win =>
      have hmax := hwin _ (List.mem_cons_self _ _) rfl
      simp only [fbaLoop, if_pos hmax]
      simp [hr]
    | lose =>
      simp only [fbaLoop]
      exact ih'
    | unknown =>
      by_cases hmax : value = BoardValue.MAX
      · simp only [fbaLoop, if_pos hmax]
        exact ih'
      · simp only [fbaLoop, if_neg hmax]
        rcases hv with hu | ⟨k, hk⟩
        · subst hu
          obtain ⟨m, hm⟩ := hleft rfl
          have h1 : BoardValue.unknown.tryDecrement = some ⟨Option.none⟩ := rfl
          have h2 : (⟨(Option.none : Option Nat)⟩ : BoardValue).isUnknown = true := rfl
          have h3 : (⟨some (m + 2)⟩ : BoardValue).tryDecrement = some ⟨some (m + 1)⟩ := rfl
          simp only [h1, h2, hm, h3, eq_self_iff_true, if_true]
          split <;> simp [hr]
        · subst hk
          have hk1 : k ≠ 0 := by
            intro hc
            subst hc
            exact hmax rfl
          obtain ⟨j, rfl⟩ : ∃ j, k = j + 1 := ⟨k - 1, by omega⟩
          have h1 : (⟨some (j + 2)⟩ : BoardValue).tryDecrement = some ⟨some (j + 1)⟩ := rfl
          simp only [h1, isUnknown_some (j + 1), Bool.false_eq_true, if_false]
          split <;> simp [hr]

/-- C8: for every input accepted by validation, `find_best_actions` does not
panic: the search returns a result (`isSome`; `none` models the source's
panics), and with positive search depth, whenever some classified action has
an immediate `Win` outcome the evaluated interval is the singleton `Win(1)`,
so the defensive `unreachable!()` branch is never executed and every
`try_decrement().unwrap()` in the search succeeds. -/
theorem find_best_actions_no_panic (g : GameIface) (board : Nat) (player : Color)
    (searchDepth : Nat) (rule : GameRule)
    (hval : validateArgs g board BoardValue.MAX rule = Option.none) :
    (findBestActionsUnchecked g rule board player searchDepth).isSome ∧
    (1 ≤ searchDepth →
      ∀ x ∈ nextBoardIter g board player rule, x.2.2 = NextBoardStatus.win →
        (evaluateBoardUnchecked g rule board player searchDepth).single =
          some BoardValue.MAX) := by
  have hwin_eval : ∀ s, 1 ≤ s →
      ∀ x ∈ nextBoardIter g board player rule, x.2.2 = NextBoardStatus.win →
        evaluateBoardUnchecked g rule board player s = ⟨⟨some 1⟩, ⟨some 1⟩⟩ := by
    intro s hs x hx hw
    apply eval_single_of_win g rule board player s hs
    rw [List.any_eq_true]
    refine ⟨x, hx, ?_⟩
    rw [hw]
    rfl
  constructor
  · cases searchDepth with
    | zero => rfl
    | succ t =>
      simp only [findBestActionsUnchecked, if_neg (Nat.succ_ne_zero t)]
      apply fbaLoop_isSome
      · intro x hx hw
        rw [hwin_eval (t + 1) (by omega) x hx hw, single_of_pair]
        rfl
      · rcases eval_cases g rule board player (t + 1) with ⟨k, hk⟩ | hk
        · right
          refine ⟨k, ?_⟩
          rw [hk, single_of_pair]
          rfl
        · left
          rw [hk]
          split
          · rw [single_of_ne _ _ (by
              intro hc
              rw [BoardValue.mk.injEq] at hc
              injection hc with hc2
              omega)]
            rfl
          · rw [single_of_ne _ _ (by
              intro hc
              rw [BoardValue.mk.injEq] at hc
              injection hc with hc2
              omega)]
            rfl
      · intro hvu
        rcases eval_cases g rule board player (t + 1) with ⟨k, hk⟩ | hk
        · rw [hk, single_of_pair] at hvu
          simp [BoardValue.unknown] at hvu
        · rw [hk]
          split
          · exact ⟨t + 1, rfl⟩
          · exact ⟨t, rfl⟩
  · intro hs x hx hw
    rw [hwin_eval searchDepth hs x hx hw]
    rfl

/-- Witness for C8 on the concrete immediate-win game at depth 1. -/
theorem find_best_actions_no_panic_witness :
    validateArgs winGame 0 BoardValue.MAX defaultRule = Option.none ∧
    (findBestActionsUnchecked winGame defaultRule 0 .red 1).isSome ∧
    (evaluateBoardUnchecked winGame defaultRule 0 .red 1).single = some BoardValue.MAX :=
  ⟨rfl, (find_best_actions_no_panic winGame 0 .red 1 defaultRule rfl).1,
    (find_best_actions_no_panic winGame 0 .red 1 defaultRule rfl).2 (by decide)
      (0, 1, .win) (by decide) rfl⟩

end TokyoDoves
